import Mathlib

/-!
Shallow embedding of the Modbus register sensor (`sensor.py`) and the Modbus
switches (`switch.py`) of the `modbus_hplc` repository, together with theorems
settling the frozen claims about them.

Modelling conventions:
* 16-bit register words and bytes are `Nat`; where the Python code would raise
  `OverflowError` for out-of-range words, theorems carry the `< 2^16` bound.
* Python `float` values are modelled as exact fractions (`Frac`, an integer
  numerator with a positive integer denominator); every concrete value
  appearing in the claims is exactly representable, so no binary rounding
  artefacts arise on them.
* Exceptions are modelled by `Option`/an explicit error component: `none` or an
  `error` value means the Python code raises at that point.
* Text decoding of the string data type is modelled on the ASCII range, which
  is the range exercised by the specification.
-/

/-- Digits of `n` in base 10, most significant first (`[0]` for `0`), with
explicit fuel so the definition is structural and kernel-reducible. -/
def natDigitsAux : Nat → Nat → List Nat
  | 0, _ => []
  | fuel + 1, n => if n < 10 then [n] else natDigitsAux fuel (n / 10) ++ [n % 10]

/-- Decimal digits of `n`, most significant first. -/
def natDigits (n : Nat) : List Nat := natDigitsAux (n + 1) n

/-- The character for a decimal digit (`0 ↦ '0'`, …). -/
def digitChar (d : Nat) : Char := Char.ofNat (d + 48)

/-- Decimal rendering of a natural number, as Python `str` renders it. -/
def natStr (n : Nat) : String := String.mk ((natDigits n).map digitChar)

/-- Python `str` on an `int`: optional minus sign followed by decimal digits. -/
def pyIntStr (z : Int) : String :=
  if z < 0 then "-" ++ natStr z.natAbs else natStr z.natAbs

/-- An exact fraction: the model of a Python `float`.  The denominator is kept
positive by construction (`Frac.wf`); the representation is not normalised so
that every operation kernel-reduces. -/
structure Frac where
  num : Int
  den : Int
  deriving DecidableEq

/-- Well-formedness of a fraction: positive denominator. -/
def Frac.wf (x : Frac) : Prop := 0 < x.den

instance (x : Frac) : Decidable x.wf := by unfold Frac.wf; infer_instance

/-- The fraction `z / 1`. -/
def Frac.ofInt (z : Int) : Frac := ⟨z, 1⟩

/-- Fraction multiplication. -/
def Frac.mul (a b : Frac) : Frac := ⟨a.num * b.num, a.den * b.den⟩

/-- Fraction addition. -/
def Frac.add (a b : Frac) : Frac := ⟨a.num * b.den + b.num * a.den, a.den * b.den⟩

/-- Absolute value of a fraction with positive denominator. -/
def Frac.abs (x : Frac) : Frac := ⟨if x.num < 0 then -x.num else x.num, x.den⟩

/-- Multiply a fraction by `10 ^ p`. -/
def Frac.mulPow10 (x : Frac) (p : Nat) : Frac := ⟨x.num * 10 ^ p, x.den⟩

/-- Whether the fraction's value is a mathematical integer. -/
def Frac.isInt (x : Frac) : Bool := x.num % x.den = 0

/-- The integer value of an integer-valued fraction (floor division, exact in
that case). -/
def Frac.intValue (x : Frac) : Int := x.num / x.den

/-- Round a fraction with positive denominator to the nearest integer, ties to
even — the rounding used by Python float formatting. -/
def fracRoundHalfEven (x : Frac) : Int :=
  let fl := x.num / x.den
  let r := x.num - fl * x.den
  if 2 * r < x.den then fl
  else if x.den < 2 * r then fl + 1
  else if fl % 2 = 0 then fl else fl + 1

/-- Left-pad a string with `'0'` to length `p`. -/
def padZeros (p : Nat) (s : String) : String :=
  String.mk (List.replicate (p - s.data.length) '0' ++ s.data)

/-- Python `f"{x:.{p}f}"` for a float `x` modelled as the exact fraction `q`:
round `|q| * 10^p` half-to-even, then print sign, integer part and exactly `p`
fractional digits (no decimal point at all when `p = 0`). -/
def pyFormatFixed (q : Frac) (p : Nat) : String :=
  let n : Nat := (fracRoundHalfEven (q.abs.mulPow10 p)).toNat
  let sign := if q.num < 0 then "-" else ""
  if p = 0 then sign ++ natStr n
  else sign ++ natStr (n / 10 ^ p) ++ "." ++ padZeros p (natStr (n % 10 ^ p))

/-- A Python number: either an `int` or a `float` (modelled as an exact
fraction).  The scale and offset of a sensor may be either. -/
inductive PyNum where
  | i (z : Int)
  | f (x : Frac)
  deriving DecidableEq

/-- Well-formedness: float models carry a positive denominator. -/
def PyNum.wf : PyNum → Prop
  | .i _ => True
  | .f x => x.wf

instance (v : PyNum) : Decidable v.wf := by
  unfold PyNum.wf; cases v <;> infer_instance

/-- The fraction value of a Python number. -/
def PyNum.toFrac : PyNum → Frac
  | .i z => Frac.ofInt z
  | .f x => x

/-- Python multiplication: `int * int` stays `int`, anything involving a
`float` is a `float`. -/
def PyNum.mul : PyNum → PyNum → PyNum
  | .i a, .i b => .i (a * b)
  | a, b => .f (a.toFrac.mul b.toFrac)

/-- Python addition, with the same promotion rule as `PyNum.mul`. -/
def PyNum.add : PyNum → PyNum → PyNum
  | .i a, .i b => .i (a + b)
  | a, b => .f (a.toFrac.add b.toFrac)

/-- Whether the number's mathematical value is an integer (an `int`, or a
`float` with an integral value). -/
def PyNum.isIntValued : PyNum → Bool
  | .i _ => true
  | .f x => x.isInt

/-- The integer value of an integer-valued Python number. -/
def PyNum.intValue : PyNum → Int
  | .i z => z
  | .f x => x.intValue

/-! ## Register sensor (`sensor.py`) -/

/-- `x.to_bytes(2, byteorder="big")` for a 16-bit word (`sensor.py` line 258).
Python raises `OverflowError` for `w ≥ 2^16`; theorems carry that bound. -/
def wordBytes (w : Nat) : List Nat := [w / 256, w % 256]

/-- The big-endian byte string packed from the register words
(`sensor.py` line 258). -/
def packBytes (registers : List Nat) : List Nat :=
  registers.flatMap wordBytes

/-- `'1'` for a set bit, `'0'` for a clear one (`x` is `0` or `1`). -/
def bitChar (x : Nat) : Char := if x = 1 then '1' else '0'

/-- `format(byte, "08b")` for a byte value `< 256`: its eight bits, most
significant first (`sensor.py` line 261). -/
def byteBits (b : Nat) : List Char :=
  [bitChar (b / 128 % 2), bitChar (b / 64 % 2), bitChar (b / 32 % 2),
   bitChar (b / 16 % 2), bitChar (b / 8 % 2), bitChar (b / 4 % 2),
   bitChar (b / 2 % 2), bitChar (b % 2)]

/-- `"".join(format(byte, "08b") for byte in byte_string)`
(`sensor.py` line 261), as a character list. -/
def bytesAsBits (bytes : List Nat) : List Char :=
  bytes.flatMap byteBits

/-- Python sequence indexing `l[i]`: negative indices count from the end,
out-of-range indices raise (`none`). -/
def pyIndex (l : List Char) (i : Int) : Option Char :=
  if i < 0 then
    if (-i) ≤ (l.length : Int) then l.get? (l.length - (-i).toNat) else none
  else l.get? i.toNat

/-- One field of a `struct` format string: a big-endian integer of the given
byte width, signed or unsigned (codes `b B h H i I q Q` with `>`). -/
structure FieldSpec where
  size : Nat
  signed : Bool
  deriving DecidableEq

/-- The big-endian value of a byte sequence. -/
def bytesToNat : List Nat → Nat
  | [] => 0
  | b :: rest => b * 256 ^ rest.length + bytesToNat rest

/-- The big-endian value of a 16-bit word sequence. -/
def wordsToNat : List Nat → Nat
  | [] => 0
  | w :: rest => w * 65536 ^ rest.length + wordsToNat rest

/-- The integer a `struct` field decodes from its bytes: big-endian, with
two's-complement sign adjustment for signed fields. -/
def fieldValue (f : FieldSpec) (bytes : List Nat) : Int :=
  let v := bytesToNat bytes
  if f.signed ∧ 2 ^ (8 * f.size - 1) ≤ v then (v : Int) - 2 ^ (8 * f.size)
  else (v : Int)

/-- `struct.unpack(fmt, byte_string)` for a big-endian integer format
(`sensor.py` line 272): `none` when the byte count does not match the format
size (Python raises `struct.error` there). -/
def structUnpack : List FieldSpec → List Nat → Option (List Int)
  | [], [] => some []
  | [], _ :: _ => none
  | fs₀ :: fs, bytes =>
    if bytes.length < fs₀.size then none
    else
      match structUnpack fs (bytes.drop fs₀.size) with
      | none => none
      | some rest => some (fieldValue fs₀ (bytes.take fs₀.size) :: rest)

/-- `byte_string.decode()` (`sensor.py` line 270), modelled on the ASCII
range: `none` (an exception) outside it. -/
def asciiDecode (bytes : List Nat) : Option String :=
  if bytes.all (· < 128) then some (String.mk (bytes.map Char.ofNat)) else none

/-- The sensor data types (`CONF_DATA_TYPE`). -/
inductive DataType where
  | int
  | uint
  | float
  | string
  | custom
  deriving DecidableEq

/-- The configuration a `ModbusRegisterSensor` decodes with: the fields set in
`ModbusRegisterSensor.__init__` that `update` reads. -/
structure SensorCfg where
  reverseOrder : Bool
  scale : PyNum
  offset : PyNum
  precision : Nat
  structFormat : List FieldSpec
  dataType : DataType
  bit : Option Nat
  deriving DecidableEq

/-- Python truthiness of `self._bit` (`if self._bit:`, `sensor.py` line 260):
`None` and `0` are falsy. -/
def bitTruthy : Option Nat → Bool
  | none => false
  | some b => b ≠ 0

/-- The single-scalar formatting of `sensor.py` lines 283–292: apply
`scale * val + offset`, then `str(val)` when the result is an `int` and the
precision is `0`, else `f"{float(val):.{precision}f}"`. -/
def formatScalar (scale offset : PyNum) (precision : Nat) (v : Int) : String :=
  match (scale.mul (PyNum.i v)).add offset with
  | .i z => if precision = 0 then pyIntStr z else pyFormatFixed (Frac.ofInt z) precision
  | .f q => pyFormatFixed q precision

/-- The rendering described by the specification for a combined scale/offset
result: an unformatted integer string when the value is a mathematical integer
and the precision is `0`, otherwise fixed-point with `precision` fractional
digits.  Stated from the claim's wording, to be compared with the code path
`formatScalar`. -/
def specScalarFormat (r : PyNum) (p : Nat) : String :=
  if r.isIntValued = true ∧ p = 0 then pyIntStr r.intValue
  else pyFormatFixed r.toFrac p

/-- `sensor.py` lines 277–295: a multi-scalar unpack is comma-joined verbatim,
a single scalar is scaled and formatted, an empty tuple raises (`val[0]`). -/
def unpackResultValue (scale offset : PyNum) (precision : Nat)
    (vals : List Int) : Option String :=
  if 1 < vals.length then
    some (String.intercalate "," (vals.map pyIntStr))
  else
    match vals with
    | [v] => some (formatScalar scale offset precision v)
    | _ => none

/-- The decoding of `ModbusRegisterSensor.update` (`sensor.py` lines 254–295)
applied to the words returned by the transport: reverse if configured, pack
big-endian, then either extract the configured bit, decode text, or unpack and
format.  `none` models an exception escaping `update`. -/
def sensorDecodeValue (cfg : SensorCfg) (registers : List Nat) : Option String :=
  let regs := if cfg.reverseOrder then registers.reverse else registers
  let byteString := packBytes regs
  if bitTruthy cfg.bit then
    let bits := bytesAsBits byteString
    match pyIndex bits ((bits.length : Int) - (cfg.bit.getD 0 : Int)) with
    | none => none
    | some c => some (String.mk [c])
  else
    match cfg.dataType with
    | .string => asciiDecode byteString
    | _ =>
      match structUnpack cfg.structFormat byteString with
      | none => none
      | some vals => unpackResultValue cfg.scale cfg.offset cfg.precision vals

/-- The mutable sensor entity state touched by `update`. -/
structure SensorState where
  value : Option String
  available : Bool
  deriving DecidableEq

/-- What a register read attempt produced: a connectivity exception, a
protocol exception/`ExceptionResponse` result, or a word list. -/
inductive RegReadOutcome where
  | conn
  | exc
  | ok (registers : List Nat)
  deriving DecidableEq

/-- `ModbusRegisterSensor.update` (`sensor.py` lines 235–297) as a state
transition on the outcome of the transport read.  `none` models an exception
escaping `update` during decode. -/
def sensorUpdate (cfg : SensorCfg) (read : RegReadOutcome) (s : SensorState) :
    Option SensorState :=
  match read with
  | .conn => some { s with available := false }
  | .exc => some { s with available := false }
  | .ok registers =>
    match sensorDecodeValue cfg registers with
    | none => none
    | some v => some { value := some v, available := true }

/-! ## Modbus switches (`switch.py`) -/

/-- A Python exception escaping a modelled function. -/
inductive PyErr where
  | typeError
  | indexError
  deriving DecidableEq

/-- The register kinds (`CONF_REGISTER_TYPE`). -/
inductive CallType where
  | holding
  | input
  deriving DecidableEq

/-- The mutable entity state shared by the switches
(`ModbusBaseSwitch.__init__`). -/
structure SwitchState where
  isOn : Option Bool
  available : Bool
  deriving DecidableEq

/-- What a coil read attempt produced. -/
inductive CoilReadOutcome where
  | conn
  | exc
  | ok (bits : List Bool)
  deriving DecidableEq

/-- What a write attempt produced (`write_coil` results are not inspected, so
only the connectivity exception matters). -/
inductive WriteOutcome where
  | conn
  | done
  deriving DecidableEq

/-- `ModbusCoilSwitch._read_coil` (`switch.py` lines 162–175): on failure set
availability false and return `False`; on success set availability true and
return `bool(result.bits[0] & 1)` (an exception if the bit list is empty). -/
def readCoil (s : SwitchState) (read : CoilReadOutcome) :
    SwitchState × Except PyErr Bool :=
  match read with
  | .conn => ({ s with available := false }, .ok false)
  | .exc => ({ s with available := false }, .ok false)
  | .ok [] => ({ s with available := true }, .error .indexError)
  | .ok (b :: _) => ({ s with available := true }, .ok b)

/-- `ModbusCoilSwitch._write_coil` (`switch.py` lines 177–185). -/
def writeCoil (s : SwitchState) (write : WriteOutcome) : SwitchState :=
  match write with
  | .conn => { s with available := false }
  | .done => { s with available := true }

/-- `ModbusCoilSwitch.turn_on` (`switch.py` lines 148–151): write, then set the
cached state to on unconditionally. -/
def coilTurnOn (s : SwitchState) (write : WriteOutcome) : SwitchState :=
  { writeCoil s write with isOn := some true }

/-- `ModbusCoilSwitch.turn_off` (`switch.py` lines 153–156). -/
def coilTurnOff (s : SwitchState) (write : WriteOutcome) : SwitchState :=
  { writeCoil s write with isOn := some false }

/-- `ModbusCoilSwitch.update` (`switch.py` lines 158–160). -/
def coilUpdate (s : SwitchState) (read : CoilReadOutcome) :
    Except PyErr SwitchState :=
  match readCoil s read with
  | (s₁, .ok b) => .ok { s₁ with isOn := some b }
  | (_, .error e) => .error e

/-- The three-element lists `self._state_on = [register, bit, bit]` and
`self._state_off = [register, bit, 0]` built in
`ModbusRegisterSwitch.__init__`. -/
structure StateTriple where
  addr : Int
  bit1 : Nat
  bit2 : Nat
  deriving DecidableEq

/-- The fields of `ModbusRegisterSwitch` set in `__init__`
(`switch.py` lines 191–228) that the modelled methods read. -/
structure RegSwitchCfg where
  register : Int
  bitPosition : Nat
  registerRead : Int
  bitRead : Nat
  commandOn : List Nat
  commandOff : List Nat
  stateOn : StateTriple
  stateOff : StateTriple
  verifyState : Bool
  verifyRegister : Int
  registerType : CallType
  deriving DecidableEq

/-- A character in `A`–`Z` (the `[A-Z]` class of the token pattern). -/
def isUpperAZ (c : Char) : Bool := 'A' ≤ c && c ≤ 'Z'

/-- `int()` on a nonempty ASCII digit string. -/
def digitsToNat (l : List Char) : Nat :=
  l.foldl (fun a c => a * 10 + (c.toNat - 48)) 0

/-- `re.match(r"^(%[A-Z]+)(\d+)\.(\d+)$", s)` (`switch.py` lines 194 and 204),
returning the letter group (with the leading `%`) and the two numeric groups.
Modelled for ASCII digits, the range the configuration schema admits. -/
def matchToken (s : String) : Option (String × Nat × Nat) :=
  match s.data with
  | '%' :: rest =>
    let letters := rest.takeWhile isUpperAZ
    let rest₁ := rest.dropWhile isUpperAZ
    if letters.isEmpty then none
    else
      let d₁ := rest₁.takeWhile Char.isDigit
      let rest₂ := rest₁.dropWhile Char.isDigit
      if d₁.isEmpty then none
      else
        match rest₂ with
        | '.' :: rest₃ =>
          let d₂ := rest₃.takeWhile Char.isDigit
          let rest₄ := rest₃.dropWhile Char.isDigit
          if d₂.isEmpty ∨ ¬rest₄.isEmpty then none
          else some (String.mk ('%' :: letters), digitsToNat d₁, digitsToNat d₂)
        | _ => none
  | _ => none

/-- `ModbusRegisterSwitch.__init__` (`switch.py` lines 191–228): parse the
command and state tokens and populate the instance fields; `none` models the
`ValueError` raised on a malformed token.  (`self._register_type` is first set
to the command token's letter group and then overwritten with the configured
register kind at line 226; only the final value is kept here.) -/
def mkRegisterSwitch (registerTok stateTok : String) (verifyRegister : Option Int)
    (verifyState : Bool) (registerType : CallType) : Option RegSwitchCfg :=
  match matchToken registerTok with
  | none => none
  | some (_, a₁, b₁) =>
    match matchToken stateTok with
    | none => none
    | some (area₂, a₂, b₂) =>
      let register : Int := (a₁ : Int) - 1
      let bitPosition : Nat := b₁ + 1
      let registerRead : Int :=
        if area₂ = "%QX" then (a₂ : Int) + 200 else (a₂ : Int)
      let bitRead : Nat := b₂ + 1
      some
        { register := register
          bitPosition := bitPosition
          registerRead := registerRead
          bitRead := bitRead
          commandOn := [bitPosition]
          commandOff := [bitPosition]
          stateOn := ⟨registerRead, bitRead, bitRead⟩
          stateOff := ⟨registerRead, bitRead, 0⟩
          verifyState := verifyState
          verifyRegister := verifyRegister.getD register
          registerType := registerType }

/-- The transport capability consumed by the register switch: each method maps
an address and a count to a read outcome. -/
structure Hub where
  readInputRegisters : Int → Nat → RegReadOutcome
  readHoldingRegisters : Int → Nat → RegReadOutcome

/-- `int(pow(2, k))` in Python: for `k < 0` the float power truncates to `0`. -/
def intPow2 (k : Int) : Int := if 0 ≤ k then 2 ^ k.toNat else 0

/-- `ModbusRegisterSwitch._zzz_read_register` (`switch.py` lines 293–312):
dispatch on the register-kind argument, absorb transport failures into
availability (returning `None`), otherwise return the first word (`available`
is set true before the indexing, which raises on an empty word list). -/
def zzzReadRegister (hub : Hub) (registerType : CallType) (register : Int)
    (s : SwitchState) : SwitchState × Except PyErr (Option Int) :=
  let result :=
    match registerType with
    | .input => hub.readInputRegisters register 1
    | .holding => hub.readHoldingRegisters register 1
  match result with
  | .conn => ({ s with available := false }, .ok none)
  | .exc => ({ s with available := false }, .ok none)
  | .ok [] => ({ s with available := true }, .error .indexError)
  | .ok (r :: _) => ({ s with available := true }, .ok (some (r : Int)))

/-- The observable result of `ModbusRegisterSwitch.update`: the state after
the call, whether the unexpected-response diagnostic was logged, and the
exception escaping the call, if any. -/
structure UpdateResult where
  state : SwitchState
  diagnostic : Bool
  raised : Option PyErr
  deriving DecidableEq

/-- `ModbusRegisterSwitch.update` (`switch.py` lines 257–291): no-op when
verification is disabled; otherwise a holding-register read at
`self._state_on[0]`, then `value = np.bitwise_and(register_value,
int(pow(2, self._state_on[1]-1)))` — which raises `TypeError` when the read
failed and returned `None` — and the three-way comparison against
`int(pow(2, self._state_on[2]-1))` and `int(pow(2, self._state_off[2]-1))`. -/
def switchUpdate (cfg : RegSwitchCfg) (hub : Hub) (s : SwitchState) :
    UpdateResult :=
  if !cfg.verifyState then ⟨s, false, none⟩
  else
    match zzzReadRegister hub .holding cfg.stateOn.addr s with
    | (s₁, .error e) => ⟨s₁, false, some e⟩
    | (s₁, .ok none) => ⟨s₁, false, some .typeError⟩
    | (s₁, .ok (some rv)) =>
      let value : Int := Int.land rv (intPow2 ((cfg.stateOn.bit1 : Int) - 1))
      if value = intPow2 ((cfg.stateOn.bit2 : Int) - 1) then
        ⟨{ s₁ with isOn := some true }, false, none⟩
      else if value = intPow2 ((cfg.stateOff.bit2 : Int) - 1) then
        ⟨{ s₁ with isOn := some false }, false, none⟩
      else ⟨s₁, true, none⟩

/-- The switch built from `%MX401.5` (command) and `%QX4.5` (state) with no
verify-register override, verification on, holding kind. -/
def cfgMX401 : RegSwitchCfg :=
  ⟨400, 6, 204, 6, [6], [6], ⟨204, 6, 6⟩, ⟨204, 6, 0⟩, true, 400, .holding⟩

/-! ## Claim theorems -/

/-- **C8.** Coil-switch read: on success it returns the first returned bit
flag (`bool(result.bits[0] & 1)`) and sets availability true; on a
connectivity exception or an exception/`ExceptionResponse` result it returns
`False` without raising and sets availability to false. -/
theorem coil_read_success_and_failure (s : SwitchState) (b : Bool) (rest : List Bool) :
    readCoil s .conn = ({ s with available := false }, .ok false) ∧
    readCoil s .exc = ({ s with available := false }, .ok false) ∧
    readCoil s (.ok (b :: rest)) = ({ s with available := true }, .ok b) := by
  refine ⟨rfl, rfl, rfl⟩

/-- **C9.** Coil-switch `turn_on` (resp. `turn_off`) sets the cached state to
`True` (resp. `False`) unconditionally after the write — also when the write
fails with a connectivity exception and availability has just been set
false. -/
theorem coil_turn_sets_cached_state (s : SwitchState) (w : WriteOutcome) :
    (coilTurnOn s w).isOn = some true ∧
    (coilTurnOff s w).isOn = some false ∧
    coilTurnOn s .conn = { isOn := some true, available := false } ∧
    coilTurnOff s .conn = { isOn := some false, available := false } := by
  refine ⟨rfl, rfl, rfl, rfl⟩

/-- **C6.** Sensor update on a transport failure (connectivity exception or
exception/`ExceptionResponse` result) sets availability false and retains the
cached decoded value unchanged; any update whose read and decode succeed sets
availability back to true. -/
theorem sensor_update_failure_keeps_value (cfg : SensorCfg) (s : SensorState) :
    sensorUpdate cfg .conn s = some { s with available := false } ∧
    sensorUpdate cfg .exc s = some { s with available := false } ∧
    ∀ regs s', sensorUpdate cfg (.ok regs) s = some s' → s'.available = true := by
  refine ⟨rfl, rfl, ?_⟩
  intro regs s' h
  simp only [sensorUpdate] at h
  cases hdec : sensorDecodeValue cfg regs with
  | none => rw [hdec] at h; exact absurd h (by simp)
  | some v => rw [hdec] at h; cases h; rfl

/-- Witness for C6 at a concrete sensor: a successful read and decode of word
`100` with scale 2, offset 5 makes the entity available. -/
theorem sensor_update_failure_keeps_value_witness :
    (⟨some "205", true⟩ : SensorState).available = true :=
  (sensor_update_failure_keeps_value
      ⟨false, .i 2, .i 5, 0, [⟨2, true⟩], .int, none⟩ ⟨none, false⟩).2.2
    [100] ⟨some "205", true⟩ (by decide)

/-- **C5.** Construction of the register switch from well-formed command and
state tokens stores: command register = first digit group of the command token
minus 1; command bit position = its second digit group plus 1; status register
= first digit group of the state token, plus 200 exactly when the state
token's area class is `%QX`; status bit position = its second digit group
plus 1. -/
theorem register_switch_token_parsing (tok₁ tok₂ area₁ area₂ : String)
    (a₁ b₁ a₂ b₂ : Nat) (vr : Option Int) (vs : Bool) (rt : CallType)
    (cfg : RegSwitchCfg)
    (h₁ : matchToken tok₁ = some (area₁, a₁, b₁))
    (h₂ : matchToken tok₂ = some (area₂, a₂, b₂))
    (hmk : mkRegisterSwitch tok₁ tok₂ vr vs rt = some cfg) :
    cfg.register = (a₁ : Int) - 1 ∧
    cfg.bitPosition = b₁ + 1 ∧
    cfg.registerRead = (a₂ : Int) + (if area₂ = "%QX" then 200 else 0) ∧
    cfg.bitRead = b₂ + 1 := by
  unfold mkRegisterSwitch at hmk
  rw [h₁, h₂] at hmk
  cases hmk
  refine ⟨rfl, rfl, ?_, rfl⟩
  by_cases hq : area₂ = "%QX" <;> simp [hq]

/-- Witness for C5 on the tokens `%MX401.5` and `%QX4.5`. -/
theorem register_switch_token_parsing_witness :
    cfgMX401.register = (401 : Int) - 1 ∧
    cfgMX401.bitPosition = 5 + 1 ∧
    cfgMX401.registerRead = (4 : Int) + (if "%QX" = "%QX" then 200 else 0) ∧
    cfgMX401.bitRead = 5 + 1 :=
  register_switch_token_parsing "%MX401.5" "%QX4.5" "%MX" "%QX" 401 5 4 5
    none true .holding cfgMX401 (by decide) (by decide) (by decide)

/-- `int(pow(2, n))` for a natural exponent is `2 ^ n`. -/
theorem intPow2_natCast (n : Nat) : intPow2 (n : Int) = 2 ^ n := by
  simp [intPow2]

/-- **C2.** Register-switch `update` with verification enabled, when the
transport yields a register value `rv`: letting `value = rv AND
2^(bit_read-1)`, if `value` equals the ON mask `2^(bit_read-1)` then `is_on`
becomes true; if it equals the OFF mask `0` then `is_on` becomes false; for
any other value `is_on` is left unchanged and the diagnostic is logged. -/
theorem register_switch_update_three_outcomes
    (tok₁ tok₂ : String) (vr : Option Int) (rt : CallType) (cfg : RegSwitchCfg)
    (hub : Hub) (s : SwitchState) (rv : Nat) (rest : List Nat)
    (hmk : mkRegisterSwitch tok₁ tok₂ vr true rt = some cfg)
    (hread : hub.readHoldingRegisters cfg.stateOn.addr 1 = .ok (rv :: rest)) :
    (Int.land (rv : Int) (intPow2 ((cfg.bitRead : Int) - 1)) =
        intPow2 ((cfg.bitRead : Int) - 1) →
      switchUpdate cfg hub s = ⟨⟨some true, true⟩, false, none⟩) ∧
    (Int.land (rv : Int) (intPow2 ((cfg.bitRead : Int) - 1)) = 0 →
      switchUpdate cfg hub s = ⟨⟨some false, true⟩, false, none⟩) ∧
    (Int.land (rv : Int) (intPow2 ((cfg.bitRead : Int) - 1)) ≠
        intPow2 ((cfg.bitRead : Int) - 1) →
      Int.land (rv : Int) (intPow2 ((cfg.bitRead : Int) - 1)) ≠ 0 →
      switchUpdate cfg hub s = ⟨⟨s.isOn, true⟩, true, none⟩) := by
  unfold mkRegisterSwitch at hmk
  cases h₁ : matchToken tok₁ with
  | none => rw [h₁] at hmk; exact absurd hmk (by simp)
  | some t₁ =>
    obtain ⟨area₁, a₁, b₁⟩ := t₁
    cases h₂ : matchToken tok₂ with
    | none => rw [h₁, h₂] at hmk; exact absurd hmk (by simp)
    | some t₂ =>
      obtain ⟨area₂, a₂, b₂⟩ := t₂
      rw [h₁, h₂] at hmk
      rw [Option.some_inj] at hmk
      subst hmk
      simp only at hread
      have hnpos : ((b₂ + 1 : Nat) : Int) - 1 = (b₂ : Int) := by push_cast; ring
      have hmask : intPow2 (((b₂ + 1 : Nat) : Int) - 1) = 2 ^ b₂ := by
        rw [hnpos, intPow2_natCast]
      have hmaskpos : (0 : Int) < 2 ^ b₂ := by positivity
      have hoff : intPow2 (((0 : Nat) : Int) - 1) = 0 := by decide
      simp only [switchUpdate, zzzReadRegister, Bool.not_true, hread, hmask, hoff,
        Bool.false_eq_true, if_false]
      refine ⟨?_, ?_, ?_⟩
      · intro hv
        rw [if_pos hv]
      · intro hv
        rw [if_neg (by rw [hv]; exact hmaskpos.ne), if_pos hv]
      · intro hv₁ hv₂
        rw [if_neg hv₁, if_neg hv₂]

/-- Witness for C2: the switch built from `%MX401.5`/`%QX4.5` (status bit
read 6, ON mask `32`) turns on when the status register reads `32`. -/
theorem register_switch_update_three_outcomes_witness :
    switchUpdate cfgMX401 ⟨fun _ _ => .ok [32], fun _ _ => .ok [32]⟩
        ⟨none, true⟩ = ⟨⟨some true, true⟩, false, none⟩ :=
  (register_switch_update_three_outcomes "%MX401.5" "%QX4.5" none .holding
      cfgMX401 ⟨fun _ _ => .ok [32], fun _ _ => .ok [32]⟩ ⟨none, true⟩ 32 []
      (by decide) rfl).1 (by decide)

/-- **C3 (divergence witness).** A transport failure (connectivity exception,
or an exception response) during the register switch's verification read sets
availability false and leaves the cached `is_on` untouched, but `update` then
raises `TypeError` from `np.bitwise_and(None, mask)` instead of returning
normally — contradicting the claim that `update` never raises. -/
theorem register_switch_update_raises_on_failure :
    (mkRegisterSwitch "%MX401.5" "%QX4.5" none true .holding).map
        (fun cfg =>
          switchUpdate cfg ⟨fun _ _ => .conn, fun _ _ => .conn⟩ ⟨some true, true⟩) =
      some ⟨⟨some true, false⟩, false, some .typeError⟩ ∧
    (mkRegisterSwitch "%MX401.5" "%QX4.5" none true .holding).map
        (fun cfg =>
          switchUpdate cfg ⟨fun _ _ => .exc, fun _ _ => .exc⟩ ⟨some true, true⟩) =
      some ⟨⟨some true, false⟩, false, some .typeError⟩ := by
  exact ⟨by decide, by decide⟩

/-- **C10.** The register switch's verification read is always a
holding-register read at `state_on[0]`: the update result depends on the
transport only through the holding read at that address, it is unchanged by
the configured register kind and the stored verify-register value, and
`state_on[0]` is the address parsed from the state token. -/
theorem register_switch_update_reads_state_register :
    (∀ (cfg : RegSwitchCfg) (hub hub' : Hub) (s : SwitchState),
      hub.readHoldingRegisters cfg.stateOn.addr 1 =
          hub'.readHoldingRegisters cfg.stateOn.addr 1 →
      switchUpdate cfg hub s = switchUpdate cfg hub' s) ∧
    (∀ (cfg : RegSwitchCfg) (v : Int) (rt : CallType) (hub : Hub) (s : SwitchState),
      switchUpdate { cfg with verifyRegister := v, registerType := rt } hub s =
        switchUpdate cfg hub s) ∧
    (∀ (tok₁ tok₂ : String) (vr : Option Int) (vs : Bool) (rt : CallType)
        (cfg : RegSwitchCfg) (area₂ : String) (a₂ b₂ : Nat),
      mkRegisterSwitch tok₁ tok₂ vr vs rt = some cfg →
      matchToken tok₂ = some (area₂, a₂, b₂) →
      cfg.stateOn.addr = (a₂ : Int) + (if area₂ = "%QX" then 200 else 0)) := by
  refine ⟨?_, ?_, ?_⟩
  · intro cfg hub hub' s hagree
    unfold switchUpdate zzzReadRegister
    rw [hagree]
  · intro cfg v rt hub s
    rfl
  · intro tok₁ tok₂ vr vs rt cfg area₂ a₂ b₂ hmk h₂
    unfold mkRegisterSwitch at hmk
    cases h₁ : matchToken tok₁ with
    | none => rw [h₁] at hmk; exact absurd hmk (by simp)
    | some t₁ =>
      obtain ⟨area₁, a₁, b₁⟩ := t₁
      rw [h₁, h₂, Option.some_inj] at hmk
      subst hmk
      by_cases hq : area₂ = "%QX" <;> simp [hq]

/-- Witness for C10: two transports that agree on the holding read at the
status address `204` but disagree everywhere else give the same update. -/
theorem register_switch_update_reads_state_register_witness :
    switchUpdate cfgMX401 ⟨fun _ _ => .conn, fun _ _ => .ok [32]⟩ ⟨none, true⟩ =
      switchUpdate cfgMX401
        ⟨fun _ _ => .ok [7], fun a _ => if a = 204 then .ok [32] else .exc⟩
        ⟨none, true⟩ :=
  register_switch_update_reads_state_register.1 cfgMX401
    ⟨fun _ _ => .conn, fun _ _ => .ok [32]⟩
    ⟨fun _ _ => .ok [7], fun a _ => if a = 204 then .ok [32] else .exc⟩
    ⟨none, true⟩ (by decide)

/-- Evaluation of the sensor decode once the bit branch and the string branch
are ruled out and the unpack result is known. -/
theorem sensorDecodeValue_unpack (cfg : SensorCfg) (regs : List Nat)
    (vals : List Int)
    (hbit : bitTruthy cfg.bit = false)
    (hdt : cfg.dataType ≠ .string)
    (hun : structUnpack cfg.structFormat
        (packBytes (if cfg.reverseOrder then regs.reverse else regs)) = some vals) :
    sensorDecodeValue cfg regs =
      unpackResultValue cfg.scale cfg.offset cfg.precision vals := by
  cases hd : cfg.dataType with
  | string => exact absurd hd hdt
  | int =>
    simp only [sensorDecodeValue, hbit, Bool.false_eq_true, if_false, hd, hun]
  | uint =>
    simp only [sensorDecodeValue, hbit, Bool.false_eq_true, if_false, hd, hun]
  | float =>
    simp only [sensorDecodeValue, hbit, Bool.false_eq_true, if_false, hd, hun]
  | custom =>
    simp only [sensorDecodeValue, hbit, Bool.false_eq_true, if_false, hd, hun]

/-- **C7.** A decode whose structure unpack yields more than one scalar stores
the comma-joined string of all scalars in order, and scale, offset and
precision are not applied (the result is unchanged under any values of
them). -/
theorem sensor_multi_scalar_comma_join (cfg : SensorCfg) (regs : List Nat)
    (vals : List Int)
    (hbit : bitTruthy cfg.bit = false)
    (hdt : cfg.dataType ≠ .string)
    (hun : structUnpack cfg.structFormat
        (packBytes (if cfg.reverseOrder then regs.reverse else regs)) = some vals)
    (hlen : 1 < vals.length) :
    sensorDecodeValue cfg regs =
      some (String.intercalate "," (vals.map pyIntStr)) ∧
    ∀ sc off p,
      sensorDecodeValue { cfg with scale := sc, offset := off, precision := p }
          regs =
        sensorDecodeValue cfg regs := by
  have h := sensorDecodeValue_unpack cfg regs vals hbit hdt hun
  have hval : ∀ sc off p, unpackResultValue sc off p vals =
      some (String.intercalate "," (vals.map pyIntStr)) := by
    intro sc off p
    rw [unpackResultValue.eq_def, if_pos hlen]
  refine ⟨by rw [h, hval], ?_⟩
  intro sc off p
  have h' := sensorDecodeValue_unpack
    { cfg with scale := sc, offset := off, precision := p } regs vals hbit hdt hun
  dsimp only at h'
  rw [h, h', hval, hval]

/-- Witness for C7: unpacking `[1, 65535]` as two signed 16-bit fields gives
`"1,-1"`, untouched by scale 2, offset 5, precision 3. -/
theorem sensor_multi_scalar_comma_join_witness :
    sensorDecodeValue
        ⟨false, .i 2, .i 5, 3, [⟨2, true⟩, ⟨2, true⟩], .custom, none⟩
        [1, 65535] =
      some "1,-1" := by
  rw [(sensor_multi_scalar_comma_join
      ⟨false, .i 2, .i 5, 3, [⟨2, true⟩, ⟨2, true⟩], .custom, none⟩
      [1, 65535] [1, -1] (by decide) (by decide) (by decide) (by decide)).1]
  rfl

/-! ## Single-scalar formatting: code path versus the claimed rendering -/

/-- Multiplication preserves positive denominators. -/
theorem fracMul_wf {a b : Frac} (ha : a.wf) (hb : b.wf) : (a.mul b).wf :=
  mul_pos ha hb

/-- Addition preserves positive denominators. -/
theorem fracAdd_wf {a b : Frac} (ha : a.wf) (hb : b.wf) : (a.add b).wf :=
  mul_pos ha hb

/-- The fraction view of a well-formed Python number is well-formed. -/
theorem PyNum.toFrac_wf {v : PyNum} (h : v.wf) : v.toFrac.wf := by
  cases v with
  | i z => exact Int.zero_lt_one
  | f x => exact h

/-- Python multiplication preserves well-formedness. -/
theorem pyNumMul_wf {a b : PyNum} (ha : a.wf) (hb : b.wf) : (a.mul b).wf := by
  cases a with
  | i z =>
    cases b with
    | i w => trivial
    | f x => exact fracMul_wf (PyNum.toFrac_wf ha) (PyNum.toFrac_wf hb)
  | f x => exact fracMul_wf (PyNum.toFrac_wf ha) (PyNum.toFrac_wf hb)

/-- Python addition preserves well-formedness. -/
theorem pyNumAdd_wf {a b : PyNum} (ha : a.wf) (hb : b.wf) : (a.add b).wf := by
  cases a with
  | i z =>
    cases b with
    | i w => trivial
    | f x => exact fracAdd_wf (PyNum.toFrac_wf ha) (PyNum.toFrac_wf hb)
  | f x => exact fracAdd_wf (PyNum.toFrac_wf ha) (PyNum.toFrac_wf hb)

/-- Rounding an exact multiple of the denominator returns the quotient. -/
theorem fracRoundHalfEven_exact (den u : Int) (hden : 0 < den) :
    fracRoundHalfEven ⟨den * u, den⟩ = u := by
  unfold fracRoundHalfEven
  simp only
  rw [Int.mul_ediv_cancel_left _ hden.ne']
  have hr : den * u - u * den = 0 := by ring
  rw [hr]
  rw [if_pos (by omega : (2 : Int) * 0 < den)]

/-- Fixed-point formatting with zero digits of an integer-valued float agrees
with Python integer rendering of its value. -/
theorem pyFormatFixed_isInt_zero (q : Frac) (hwf : q.wf) (hint : q.isInt = true) :
    pyFormatFixed q 0 = pyIntStr q.intValue := by
  have hden : 0 < q.den := hwf
  have hmod : q.num % q.den = 0 := of_decide_eq_true hint
  obtain ⟨w, hnum⟩ : q.den ∣ q.num := Int.dvd_of_emod_eq_zero hmod
  have hdivw : q.num / q.den = w := by
    rw [hnum, Int.mul_ediv_cancel_left _ hden.ne']
  have key : pyFormatFixed q 0 =
      (if q.num < 0 then "-" else "") ++
        natStr (fracRoundHalfEven (q.abs.mulPow10 0)).toNat := rfl
  have habs : q.abs.mulPow10 0 =
      ⟨if q.num < 0 then -q.num else q.num, q.den⟩ := by
    unfold Frac.abs Frac.mulPow10
    simp
  rw [key, habs]
  rw [show pyIntStr q.intValue = pyIntStr (q.num / q.den) from rfl, hdivw]
  by_cases hneg : q.num < 0
  · have hwneg : w < 0 := by
      rcases lt_trichotomy w 0 with h | h | h
      · exact h
      · rw [h, mul_zero] at hnum; rw [hnum] at hneg; exact absurd hneg (lt_irrefl 0)
      · have hp : 0 < q.den * w := mul_pos hden h
        rw [← hnum] at hp
        exact absurd hneg (not_lt.mpr hp.le)
    have ha : (if q.num < 0 then -q.num else q.num) = q.den * (-w) := by
      rw [if_pos hneg, hnum, mul_neg]
    rw [ha, fracRoundHalfEven_exact _ _ hden]
    rw [if_pos hneg, pyIntStr, if_pos hwneg]
    have htn : (-w).toNat = w.natAbs := by omega
    rw [htn]
  · have hpos : 0 ≤ q.num := not_lt.mp hneg
    have hwpos : 0 ≤ w := by
      rcases lt_trichotomy w 0 with h | h | h
      · have hn : q.den * w < 0 := mul_neg_of_pos_of_neg hden h
        rw [← hnum] at hn
        exact absurd hn (not_lt.mpr hpos)
      · exact h.ge
      · exact h.le
    have ha : (if q.num < 0 then -q.num else q.num) = q.den * w := by
      rw [if_neg hneg, hnum]
    rw [ha, fracRoundHalfEven_exact _ _ hden]
    rw [if_neg hneg, pyIntStr, if_neg (not_lt.mpr hwpos)]
    have htn : w.toNat = w.natAbs := by omega
    rw [htn, String.empty_append]

/-- The code's single-scalar formatting agrees everywhere with the rendering
the specification describes. -/
theorem formatScalar_eq_spec (scale offset : PyNum) (p : Nat) (v : Int)
    (hws : scale.wf) (hwo : offset.wf) :
    formatScalar scale offset p v =
      specScalarFormat ((scale.mul (PyNum.i v)).add offset) p := by
  have hwf : ((scale.mul (PyNum.i v)).add offset).wf :=
    pyNumAdd_wf (pyNumMul_wf hws trivial) hwo
  unfold formatScalar specScalarFormat
  cases hrr : (scale.mul (PyNum.i v)).add offset with
  | i z =>
    simp only [PyNum.isIntValued, PyNum.intValue, PyNum.toFrac]
    by_cases hp : p = 0
    · subst hp
      simp
    · simp [hp]
  | f x =>
    rw [hrr] at hwf
    simp only [PyNum.isIntValued, PyNum.intValue, PyNum.toFrac]
    by_cases hc : x.isInt = true ∧ p = 0
    · obtain ⟨hcint, hp⟩ := hc
      subst hp
      rw [if_pos ⟨hcint, rfl⟩]
      exact pyFormatFixed_isInt_zero x hwf hcint
    · rw [if_neg hc]

/-- Every entry produced by `natDigitsAux` is a decimal digit. -/
theorem natDigitsAux_lt10 :
    ∀ fuel n, n < fuel → ∀ d ∈ natDigitsAux fuel n, d < 10 := by
  intro fuel
  induction fuel with
  | zero => intro n hn; omega
  | succ fuel ih =>
    intro n hn d hd
    unfold natDigitsAux at hd
    by_cases hsmall : n < 10
    · rw [if_pos hsmall] at hd
      simp at hd
      omega
    · rw [if_neg hsmall] at hd
      rcases List.mem_append.mp hd with h | h
      · have hlt : n / 10 < fuel := by
          have := Nat.div_lt_self (by omega : 0 < n) (by omega : 1 < 10)
          omega
        exact ih (n / 10) hlt d h
      · simp at h
        omega

/-- Every digit of `natDigits` is a decimal digit. -/
theorem natDigits_lt10 (n : Nat) : ∀ d ∈ natDigits n, d < 10 :=
  natDigitsAux_lt10 (n + 1) n (Nat.lt_succ_self n)

/-- A number below `10^p` has at most `p` decimal digits (for `p ≥ 1`). -/
theorem natDigitsAux_length_le :
    ∀ fuel n p, n < fuel → n < 10 ^ p → 1 ≤ p →
      (natDigitsAux fuel n).length ≤ p := by
  intro fuel
  induction fuel with
  | zero => intro n p hn; omega
  | succ fuel ih =>
    intro n p hn hp hp1
    unfold natDigitsAux
    by_cases hsmall : n < 10
    · rw [if_pos hsmall]
      simpa using hp1
    · rw [if_neg hsmall]
      have hp2 : 2 ≤ p := by
        by_contra hcon
        have hpe : p = 1 := by omega
        rw [hpe, pow_one] at hp
        omega
      have hdivfuel : n / 10 < fuel := by
        have := Nat.div_lt_self (by omega : 0 < n) (by omega : 1 < 10)
        omega
      have hdivpow : n / 10 < 10 ^ (p - 1) := by
        rw [Nat.div_lt_iff_lt_mul (by omega : 0 < 10)]
        have hpow : 10 ^ (p - 1) * 10 = 10 ^ p := by
          rw [← pow_succ]
          congr 1
          omega
        omega
      have := ih (n / 10) (p - 1) hdivfuel hdivpow (by omega)
      rw [List.length_append]
      simp only [List.length_cons, List.length_nil]
      omega

/-- `natStr` of a number below `10^p` has at most `p` characters. -/
theorem natStr_length_le (n p : Nat) (h : n < 10 ^ p) (hp : 1 ≤ p) :
    (natStr n).data.length ≤ p := by
  unfold natStr
  rw [List.length_map]
  exact natDigitsAux_length_le (n + 1) n p (Nat.lt_succ_self n) h hp

/-- The character of a decimal digit is a digit character. -/
theorem digitChar_isDigit {d : Nat} (h : d < 10) :
    (digitChar d).isDigit = true := by
  interval_cases d <;> decide

/-- The character of a decimal digit is not a decimal point. -/
theorem digitChar_ne_dot {d : Nat} (h : d < 10) : digitChar d ≠ '.' := by
  interval_cases d <;> decide

/-- `padZeros` yields exactly `p` characters when the input is at most `p`
characters long. -/
theorem padZeros_length (p : Nat) (s : String) (h : s.data.length ≤ p) :
    (padZeros p s).length = p := by
  unfold padZeros
  rw [String.length_mk, List.length_append, List.length_replicate]
  omega

/-- Fixed-point formatting with `p ≠ 0` fractional digits splits into a head
without a decimal point, the decimal point, and exactly `p` digit
characters. -/
theorem pyFormatFixed_shape (q : Frac) (p : Nat) (hp : p ≠ 0) :
    ∃ head frac : String,
      pyFormatFixed q p = head ++ "." ++ frac ∧
      frac.length = p ∧
      (∀ c ∈ frac.data, c.isDigit = true) ∧
      (∀ c ∈ head.data, c ≠ '.') := by
  refine ⟨(if q.num < 0 then "-" else "") ++
      natStr ((fracRoundHalfEven (q.abs.mulPow10 p)).toNat / 10 ^ p),
    padZeros p (natStr ((fracRoundHalfEven (q.abs.mulPow10 p)).toNat % 10 ^ p)),
    ?_, ?_, ?_, ?_⟩
  · simp only [pyFormatFixed]
    rw [if_neg hp]
  · exact padZeros_length _ _
      (natStr_length_le _ _
        (Nat.mod_lt _ (Nat.pos_pow_of_pos p (by omega))) (by omega))
  · intro c hc
    unfold padZeros at hc
    rcases List.mem_append.mp hc with h | h
    · rw [List.eq_of_mem_replicate h]
      decide
    · unfold natStr at h
      obtain ⟨d, hd, rfl⟩ := List.mem_map.mp h
      exact digitChar_isDigit (natDigits_lt10 _ d hd)
  · intro c hc
    rw [String.data_append] at hc
    rcases List.mem_append.mp hc with h | h
    · by_cases hneg : q.num < 0
      · rw [if_pos hneg] at h
        simp at h
        rw [h]
        decide
      · rw [if_neg hneg] at h
        simp at h
    · unfold natStr at h
      obtain ⟨d, hd, rfl⟩ := List.mem_map.mp h
      exact digitChar_ne_dot (natDigits_lt10 _ d hd)

/-- **C1.** A decode whose unpack yields exactly one numeric scalar `v` (bit
not configured, data type not String) stores the string of
`scale * v + offset`: an unformatted integer string when the combined result
is a mathematical integer and the precision is `0`, otherwise fixed-point with
exactly `precision` digits after the decimal point; in particular raw integer
`100` with scale 2, offset 5 gives `"205"` at precision 0 and `"205.0"` at
precision 1. -/
theorem sensor_single_scalar_format (cfg : SensorCfg) (regs : List Nat) (v : Int)
    (hws : cfg.scale.wf) (hwo : cfg.offset.wf)
    (hbit : bitTruthy cfg.bit = false)
    (hdt : cfg.dataType ≠ .string)
    (hun : structUnpack cfg.structFormat
        (packBytes (if cfg.reverseOrder then regs.reverse else regs)) = some [v]) :
    sensorDecodeValue cfg regs =
      some (specScalarFormat ((cfg.scale.mul (PyNum.i v)).add cfg.offset)
        cfg.precision) ∧
    (cfg.precision ≠ 0 →
      ∃ head frac : String,
        sensorDecodeValue cfg regs = some (head ++ "." ++ frac) ∧
        frac.length = cfg.precision ∧
        (∀ c ∈ frac.data, c.isDigit = true) ∧
        (∀ c ∈ head.data, c ≠ '.')) ∧
    sensorDecodeValue ⟨false, .i 2, .i 5, 0, [⟨2, true⟩], .int, none⟩ [100] =
      some "205" ∧
    sensorDecodeValue ⟨false, .i 2, .i 5, 1, [⟨2, true⟩], .int, none⟩ [100] =
      some "205.0" := by
  have h := sensorDecodeValue_unpack cfg regs [v] hbit hdt hun
  have hvu : unpackResultValue cfg.scale cfg.offset cfg.precision [v] =
      some (formatScalar cfg.scale cfg.offset cfg.precision v) := rfl
  have hmain : sensorDecodeValue cfg regs =
      some (specScalarFormat ((cfg.scale.mul (PyNum.i v)).add cfg.offset)
        cfg.precision) := by
    rw [h, hvu, formatScalar_eq_spec cfg.scale cfg.offset cfg.precision v hws hwo]
  refine ⟨hmain, ?_, by decide, by decide⟩
  intro hp
  have hval : sensorDecodeValue cfg regs =
      some (pyFormatFixed ((cfg.scale.mul (PyNum.i v)).add cfg.offset).toFrac
        cfg.precision) := by
    rw [hmain]
    unfold specScalarFormat
    rw [if_neg (by tauto)]
  obtain ⟨head, frac, heq, hlen, hdig, hnd⟩ :=
    pyFormatFixed_shape ((cfg.scale.mul (PyNum.i v)).add cfg.offset).toFrac
      cfg.precision hp
  exact ⟨head, frac, by rw [hval, heq], hlen, hdig, hnd⟩

/-- Witness for C1: scale 2, offset 5 on raw word `100` with precision 1
formats as `"205.0"`. -/
theorem sensor_single_scalar_format_witness :
    sensorDecodeValue ⟨false, .i 2, .i 5, 1, [⟨2, true⟩], .int, none⟩ [100] =
      some "205.0" := by
  rw [(sensor_single_scalar_format
      ⟨false, .i 2, .i 5, 1, [⟨2, true⟩], .int, none⟩ [100] 100
      trivial trivial (by decide) (by decide) (by decide)).1]
  rfl

/-! ## Bit extraction -/

/-- `packBytes` unfolded on a leading word. -/
theorem packBytes_cons (w : Nat) (rest : List Nat) :
    packBytes (w :: rest) = wordBytes w ++ packBytes rest := by
  simp [packBytes]

/-- Packing produces two bytes per word. -/
theorem packBytes_length (ws : List Nat) :
    (packBytes ws).length = 2 * ws.length := by
  induction ws with
  | nil => rfl
  | cons w rest ih =>
    rw [packBytes_cons, List.length_append, ih]
    simp [wordBytes]
    omega

/-- Packing in-range words produces in-range bytes. -/
theorem packBytes_lt (ws : List Nat) (h : ∀ w ∈ ws, w < 65536) :
    ∀ x ∈ packBytes ws, x < 256 := by
  induction ws with
  | nil => intro x hx; simp [packBytes] at hx
  | cons w rest ih =>
    intro x hx
    rw [packBytes_cons] at hx
    rcases List.mem_append.mp hx with hx | hx
    · have hw := h w (List.mem_cons_self _ _)
      simp [wordBytes] at hx
      rcases hx with rfl | rfl
      · exact (Nat.div_lt_iff_lt_mul (by omega)).mpr (by omega)
      · exact Nat.mod_lt _ (by omega)
    · exact ih (fun y hy => h y (List.mem_cons_of_mem _ hy)) x hx

/-- The big-endian value of in-range bytes is below `256 ^ length`. -/
theorem bytesToNat_lt (bytes : List Nat) (h : ∀ x ∈ bytes, x < 256) :
    bytesToNat bytes < 256 ^ bytes.length := by
  induction bytes with
  | nil => simp [bytesToNat]
  | cons x rest ih =>
    have hx := h x (List.mem_cons_self _ _)
    have hr := ih (fun y hy => h y (List.mem_cons_of_mem _ hy))
    show x * 256 ^ rest.length + bytesToNat rest < 256 ^ (rest.length + 1)
    calc x * 256 ^ rest.length + bytesToNat rest
        ≤ 255 * 256 ^ rest.length + bytesToNat rest :=
          Nat.add_le_add_right (Nat.mul_le_mul_right _ (by omega)) _
      _ < 255 * 256 ^ rest.length + 256 ^ rest.length :=
          Nat.add_lt_add_left hr _
      _ = 256 ^ (rest.length + 1) := by rw [pow_succ]; ring

/-- The big-endian value of the packed bytes is the big-endian value of the
words. -/
theorem bytesToNat_packBytes (ws : List Nat) :
    bytesToNat (packBytes ws) = wordsToNat ws := by
  induction ws with
  | nil => rfl
  | cons w rest ih =>
    rw [packBytes_cons]
    show bytesToNat (w / 256 :: w % 256 :: packBytes rest) =
      w * 65536 ^ rest.length + wordsToNat rest
    simp only [bytesToNat, List.length_cons, ih, packBytes_length]
    have h65 : (65536 : Nat) ^ rest.length = 256 ^ (2 * rest.length) := by
      rw [show (65536 : Nat) = 256 ^ 2 from rfl, ← pow_mul]
    rw [h65]
    have hkey : w / 256 * 256 ^ (2 * rest.length + 1) +
        w % 256 * 256 ^ (2 * rest.length) = w * 256 ^ (2 * rest.length) := by
      rw [pow_succ]
      calc w / 256 * (256 ^ (2 * rest.length) * 256) +
            w % 256 * 256 ^ (2 * rest.length)
          = (256 * (w / 256) + w % 256) * 256 ^ (2 * rest.length) := by ring
        _ = w * 256 ^ (2 * rest.length) := by rw [Nat.div_add_mod]
    rw [← add_assoc, hkey]

/-- `bytesAsBits` unfolded on a leading byte. -/
theorem bytesAsBits_cons (x : Nat) (rest : List Nat) :
    bytesAsBits (x :: rest) = byteBits x ++ bytesAsBits rest := by
  simp [bytesAsBits]

/-- A byte renders as eight bit characters. -/
theorem byteBits_length (x : Nat) : (byteBits x).length = 8 := rfl

/-- The bit string has eight characters per byte. -/
theorem bytesAsBits_length (bytes : List Nat) :
    (bytesAsBits bytes).length = 8 * bytes.length := by
  induction bytes with
  | nil => rfl
  | cons x rest ih =>
    rw [bytesAsBits_cons, List.length_append, byteBits_length, ih,
      List.length_cons]
    omega

/-- Character `7 - m` of a byte's bit string is bit `m` of the byte. -/
theorem byteBits_get (x m : Nat) (hm : m < 8) :
    (byteBits x).get? (7 - m) = some (bitChar (x / 2 ^ m % 2)) := by
  interval_cases m <;> simp [byteBits, List.get?]

/-- Character `total - 1 - k` of the big-endian bit string of in-range bytes
is bit `k` of their big-endian value. -/
theorem bytesAsBits_get :
    ∀ bytes : List Nat, (∀ x ∈ bytes, x < 256) →
      ∀ k, k < 8 * bytes.length →
        (bytesAsBits bytes).get? (8 * bytes.length - 1 - k) =
          some (bitChar (bytesToNat bytes / 2 ^ k % 2)) := by
  intro bytes
  induction bytes with
  | nil => intro _ k hk; simp at hk
  | cons x rest ih =>
    intro hb k hk
    have hx : x < 256 := hb x (List.mem_cons_self _ _)
    have hbr : ∀ y ∈ rest, y < 256 := fun y hy => hb y (List.mem_cons_of_mem _ hy)
    have hVlt : bytesToNat rest < 2 ^ (8 * rest.length) := by
      have := bytesToNat_lt rest hbr
      have h256 : (256 : Nat) ^ rest.length = 2 ^ (8 * rest.length) := by
        rw [show (256 : Nat) = 2 ^ 8 from rfl, ← pow_mul]
      rw [h256] at this
      exact this
    have hN : bytesToNat (x :: rest) =
        x * 2 ^ (8 * rest.length) + bytesToNat rest := by
      show x * 256 ^ rest.length + bytesToNat rest = _
      have h256 : (256 : Nat) ^ rest.length = 2 ^ (8 * rest.length) := by
        rw [show (256 : Nat) = 2 ^ 8 from rfl, ← pow_mul]
      rw [h256]
    rw [bytesAsBits_cons, hN]
    simp only [List.length_cons] at hk ⊢
    by_cases hk8 : 8 * rest.length ≤ k
    · obtain ⟨m, rfl⟩ : ∃ m, k = 8 * rest.length + m :=
        ⟨k - 8 * rest.length, by omega⟩
      have hm : m < 8 := by omega
      have hidx : 8 * (rest.length + 1) - 1 - (8 * rest.length + m) = 7 - m := by
        omega
      rw [hidx]
      rw [List.get?_append (by rw [byteBits_length]; omega), byteBits_get x m hm]
      have harith : (x * 2 ^ (8 * rest.length) + bytesToNat rest) /
          2 ^ (8 * rest.length + m) % 2 = x / 2 ^ m % 2 := by
        rw [pow_add, ← Nat.div_div_eq_div_mul]
        rw [mul_comm x (2 ^ (8 * rest.length)),
          Nat.mul_add_div (Nat.pos_pow_of_pos _ (by omega)),
          Nat.div_eq_of_lt hVlt, add_zero]
      rw [harith]
    · have hidx : 8 * (rest.length + 1) - 1 - k =
          8 + (8 * rest.length - 1 - k) := by omega
      rw [hidx]
      rw [List.get?_append_right (by rw [byteBits_length]; omega)]
      rw [byteBits_length]
      have hsub : 8 + (8 * rest.length - 1 - k) - 8 = 8 * rest.length - 1 - k := by
        omega
      rw [hsub, ih hbr k (by omega)]
      have harith : (x * 2 ^ (8 * rest.length) + bytesToNat rest) / 2 ^ k % 2 =
          bytesToNat rest / 2 ^ k % 2 := by
        have hsplit : x * 2 ^ (8 * rest.length) =
            2 ^ k * (x * 2 ^ (8 * rest.length - k)) := by
          rw [mul_comm (2 ^ k), mul_assoc, ← pow_add]
          congr 2
          omega
        rw [hsplit, Nat.mul_add_div (Nat.pos_pow_of_pos _ (by omega))]
        obtain ⟨d, hd⟩ : ∃ d, 8 * rest.length - k = d + 1 :=
          ⟨8 * rest.length - k - 1, by omega⟩
        rw [hd, pow_succ]
        rw [show x * (2 ^ d * 2) = 2 * (x * 2 ^ d) by ring, Nat.mul_add_mod]
      rw [harith]

/-- **C4.** When a bit index `b` with `1 ≤ b ≤ 16·len` is configured, the
decode stores the single character `"0"`/`"1"` for bit `b - 1` (counting from
the least significant bit) of the big-endian value of the packed words — the
character at position `total_bits - b` of the big-endian bit string — and
scale, offset, precision and data-type decoding are all bypassed; for word
`0b0000000000000101`, bit index 1 gives `"1"` and bit index 16 gives `"0"`. -/
theorem sensor_bit_extraction (cfg : SensorCfg) (regs : List Nat) (b : Nat)
    (hb : cfg.bit = some b) (h1 : 1 ≤ b) (h2 : b ≤ 16 * regs.length)
    (hw : ∀ w ∈ regs, w < 65536) :
    sensorDecodeValue cfg regs =
      some (String.mk [bitChar
        (wordsToNat (if cfg.reverseOrder then regs.reverse else regs) /
          2 ^ (b - 1) % 2)]) ∧
    sensorDecodeValue ⟨false, .i 1, .i 0, 0, [⟨2, true⟩], .int, some 1⟩ [5] =
      some "1" ∧
    sensorDecodeValue ⟨false, .i 1, .i 0, 0, [⟨2, true⟩], .int, some 16⟩ [5] =
      some "0" := by
  refine ⟨?_, by decide, by decide⟩
  have hlen' : (if cfg.reverseOrder then regs.reverse else regs).length =
      regs.length := by
    by_cases hrev : cfg.reverseOrder <;> simp [hrev]
  have hw' : ∀ w ∈ (if cfg.reverseOrder then regs.reverse else regs),
      w < 65536 := by
    intro w hw₂
    by_cases hrev : cfg.reverseOrder
    · rw [if_pos hrev] at hw₂
      exact hw w (List.mem_reverse.mp hw₂)
    · rw [if_neg hrev] at hw₂
      exact hw w hw₂
  set R := if cfg.reverseOrder then regs.reverse else regs with hR
  have hbytes_lt := packBytes_lt R hw'
  have hblen : (packBytes R).length = 2 * regs.length := by
    rw [packBytes_length, hlen']
  have hbits_len : (bytesAsBits (packBytes R)).length = 16 * regs.length := by
    rw [bytesAsBits_length, hblen]
    ring
  have hTruthy : bitTruthy (some b) = true := by
    simp [bitTruthy]
    omega
  have hidx : pyIndex (bytesAsBits (packBytes R))
      (((bytesAsBits (packBytes R)).length : Int) - (b : Int)) =
      some (bitChar (wordsToNat R / 2 ^ (b - 1) % 2)) := by
    unfold pyIndex
    rw [hbits_len]
    rw [if_neg (by push_cast; omega)]
    have htn : (((16 * regs.length : Nat) : Int) - (b : Int)).toNat =
        16 * regs.length - b := by omega
    rw [htn]
    have hidx2 : 16 * regs.length - b =
        8 * (packBytes R).length - 1 - (b - 1) := by
      rw [hblen]
      omega
    rw [hidx2]
    rw [bytesAsBits_get (packBytes R) hbytes_lt (b - 1) (by rw [hblen]; omega)]
    rw [bytesToNat_packBytes]
  simp only [sensorDecodeValue, hb, hTruthy, if_true, Option.getD_some, ← hR,
    hidx]

/-- Witness for C4: bit index 1 of word `5` decodes to `"1"`. -/
theorem sensor_bit_extraction_witness :
    sensorDecodeValue ⟨false, .i 1, .i 0, 0, [⟨2, true⟩], .int, some 1⟩ [5] =
      some "1" := by
  rw [(sensor_bit_extraction ⟨false, .i 1, .i 0, 0, [⟨2, true⟩], .int, some 1⟩
      [5] 1 rfl (by decide) (by decide) (by decide)).1]
  rfl
